import Mathlib

/-!
# Verification of the SOS game engine and recording subsystem

Shallow embedding of the game-state engine (`src/game.rs`) and the
move-recording subsystem (`src/recording.rs`) of the `sos-game` repository,
together with proofs settling the frozen specification claims.

Conventions of the embedding:
* Rust `usize` and `u32` values are modelled as `Nat`; additions that the
  machine performs with wraparound are written with an explicit `% 2 ^ 64`
  (resp. `% 2 ^ 32`).
* `Vec<Vec<Cell>>` is modelled as `List (List Cell)`; indexed reads that the
  source performs only under bounds guards are modelled with `List.getD`.
* Rust strings are modelled as `List Char`; file contents are passed to the
  deserializer as the character list of the file.
-/

namespace SosGame

/-- `Cell` from `game.rs`: the possible SOS cell values. -/
inductive Cell
  | Empty
  | S
  | O
deriving DecidableEq, Repr

/-- `Mode` from `game.rs`: the different game modes. -/
inductive Mode
  | Classic
  | Simple
deriving DecidableEq, Repr

/-- `Turn` from `game.rs`: player turns. -/
inductive Turn
  | Left
  | Right
deriving DecidableEq, Repr

/-- `State` from `game.rs`: overall game status. -/
inductive State
  | LeftWin
  | RightWin
  | Draw
  | Playing
  | NotStarted
deriving DecidableEq, Repr

/-- Bounds-guarded read of `board[y][x]`.  Every read the source performs is
protected by an explicit bounds guard, so the default value is never the
result of a read the Rust code actually executes. -/
def getc (b : List (List Cell)) (y x : Nat) : Cell :=
  (b.getD y []).getD x Cell.Empty

/-- Guarded write `board[y][x] = v` (`List.set` is a no-op out of bounds,
matching the fact that the source only writes under its bounds guard). -/
def setc (b : List (List Cell)) (y x : Nat) (v : Cell) : List (List Cell) :=
  b.set y ((b.getD y []).set x v)

/-- `Game` from `game.rs`.  The trait object `game_type:
Option<Box<dyn WinCondition>>` is always `Some` and is chosen from the mode at
construction, so it is represented by the `mode` it was built from. -/
structure Game where
  board : List (List Cell)
  turn : Turn
  mode : Mode
  cells_filled : Nat
  left_score : Nat
  right_score : Nat
  state : State
deriving DecidableEq, Repr

/-- `Game::new` from `game.rs`. -/
def Game.new (board_size : Nat) (mode : Mode) : Game :=
  { board := List.replicate board_size (List.replicate board_size Cell.Empty)
    turn := Turn.Left
    mode := mode
    cells_filled := 0
    left_score := 0
    right_score := 0
    state := State.NotStarted }

/-- `Game::valid_cell` from `game.rs`. -/
def Game.valid_cell (g : Game) (col row : Nat) : Bool :=
  decide (col < g.board.length) && decide (row < g.board.length)

/-- `Game::switch_turn` from `game.rs` (as a function on the turn value). -/
def switch_turn : Turn → Turn
  | Turn.Left => Turn.Right
  | Turn.Right => Turn.Left

/-- `Game::board_full` from `game.rs`. -/
def Game.board_full (g : Game) : Bool :=
  g.cells_filled == g.board.length ^ 2

/-- `Game::sos_made` from `game.rs`: count of S-O-S patterns completed by the
cell just written at `(x, y) = (col, row)`.  The nested guard structure of the
source is kept; `Nat` truncated subtraction agrees with the source's `usize`
subtractions `len - 1` / `len - 2` on every board the guards are reached for
(the scrutinee forces `len ≥ 1`, and for `len < 3` no pattern fits). -/
def sos_made (b : List (List Cell)) (x y : Nat) : Nat :=
  let n := b.length
  match getc b y x with
  | Cell.O =>
    (if y > 0 ∧ y < n - 1 then
      (if getc b (y-1) x = Cell.S ∧ getc b (y+1) x = Cell.S then 1 else 0)
      + (if x > 0 ∧ x < n - 1 then
          (if getc b (y-1) (x+1) = Cell.S ∧ getc b (y+1) (x-1) = Cell.S then 1 else 0)
          + (if getc b (y+1) (x+1) = Cell.S ∧ getc b (y-1) (x-1) = Cell.S then 1 else 0)
        else 0)
    else 0)
    + (if x > 0 ∧ x < n - 1 then
        (if getc b y (x+1) = Cell.S ∧ getc b y (x-1) = Cell.S then 1 else 0)
      else 0)
  | Cell.S =>
    (if y > 1 then
      (if getc b (y-1) x = Cell.O ∧ getc b (y-2) x = Cell.S then 1 else 0)
      + (if x > 1 then
          (if getc b (y-1) (x-1) = Cell.O ∧ getc b (y-2) (x-2) = Cell.S then 1 else 0)
        else 0)
      + (if x < n - 2 then
          (if getc b (y-1) (x+1) = Cell.O ∧ getc b (y-2) (x+2) = Cell.S then 1 else 0)
        else 0)
    else 0)
    + (if y < n - 2 then
        (if getc b (y+1) x = Cell.O ∧ getc b (y+2) x = Cell.S then 1 else 0)
        + (if x > 1 then
            (if getc b (y+1) (x-1) = Cell.O ∧ getc b (y+2) (x-2) = Cell.S then 1 else 0)
          else 0)
        + (if x < n - 2 then
            (if getc b (y+1) (x+1) = Cell.O ∧ getc b (y+2) (x+2) = Cell.S then 1 else 0)
          else 0)
      else 0)
    + (if x > 1 then
        (if getc b y (x-1) = Cell.O ∧ getc b y (x-2) = Cell.S then 1 else 0)
      else 0)
    + (if x < n - 2 then
        (if getc b y (x+1) = Cell.O ∧ getc b y (x+2) = Cell.S then 1 else 0)
      else 0)
  | Cell.Empty => 0

/-- `ClassicGame::get_game_state` from `game.rs`. -/
def classic_get_game_state (g : Game) : State :=
  if ¬ g.board_full then State.Playing
  else if g.left_score > g.right_score then State.LeftWin
  else if g.right_score > g.left_score then State.RightWin
  else State.Draw

/-- `SimpleGame::get_game_state` from `game.rs`. -/
def simple_get_game_state (g : Game) : State :=
  if g.left_score > g.right_score then State.LeftWin
  else if g.right_score > g.left_score then State.RightWin
  else if g.board_full then State.Draw
  else State.Playing

/-- Dispatch through the `WinCondition` trait object chosen at construction. -/
def get_game_state (g : Game) : State :=
  match g.mode with
  | Mode.Classic => classic_get_game_state g
  | Mode.Simple => simple_get_game_state g

/-- The acceptance check inlined in `Game::make_move`:
`self.valid_cell(col, row) && self.board[row][col] == Cell::Empty &&
self.state == State::Playing`. -/
def Game.accepts (g : Game) (row col : Nat) : Bool :=
  g.valid_cell col row && (getc g.board row col == Cell.Empty)
    && (g.state == State.Playing)

/-- `Game::make_move` from `game.rs`: on acceptance, write the cell, increment
the fill counter, add `sos_made` at the written coordinate to the mover's
score, re-derive the status, and switch the turn; otherwise do nothing. -/
def Game.make_move (g : Game) (row col : Nat) (input : Cell) : Game :=
  if g.accepts row col then
    let b := setc g.board row col input
    let filled := (g.cells_filled + 1) % 2 ^ 64
    let cnt := sos_made b col row
    let ls := match g.turn with
      | Turn.Left => (g.left_score + cnt) % 2 ^ 32
      | Turn.Right => g.left_score
    let rs := match g.turn with
      | Turn.Left => g.right_score
      | Turn.Right => (g.right_score + cnt) % 2 ^ 32
    let g1 : Game := { g with board := b, cells_filled := filled,
                              left_score := ls, right_score := rs }
    let g2 : Game := { g1 with state := get_game_state g1 }
    { g2 with turn := switch_turn g2.turn }
  else g

/-- `Move` from `recording.rs`. -/
structure Move where
  cell : Cell
  row : Nat
  col : Nat
deriving DecidableEq, Repr

/-- `Recording` from `recording.rs`. -/
structure Recording where
  mode : Mode
  board_size : Nat
  moves : List Move
  current_move : Nat
deriving DecidableEq, Repr

/-- `Recording::new` from `recording.rs`. -/
def Recording.new (mode : Mode) (board_size : Nat) : Recording :=
  { mode := mode, board_size := board_size, moves := [], current_move := 0 }

/-- `Recording::add_move` from `recording.rs`. -/
def Recording.add_move (r : Recording) (cell : Cell) (row col : Nat) : Recording :=
  { r with moves := r.moves ++ [{ cell := cell, row := row, col := col }] }

/-- Decimal digit character, `'0' + d` for `d < 10`. -/
def digitChar (d : Nat) : Char :=
  Char.ofNat (48 + d)

/-- Fuel-driven accumulator loop producing the decimal digits of `n`
(most significant first), prepended to `acc`.  With fuel `≥ n` it matches
Rust's `usize::to_string`. -/
def natToDigitsAux : Nat → Nat → List Char → List Char
  | 0, n, acc => digitChar (n % 10) :: acc
  | fuel + 1, n, acc =>
    if n < 10 then digitChar n :: acc
    else natToDigitsAux fuel (n / 10) (digitChar (n % 10) :: acc)

/-- The decimal representation of `n`, as produced by `usize::to_string`. -/
def natToDigits (n : Nat) : List Char :=
  natToDigitsAux n n []

/-- Value of a digit string read left to right (the accumulation
`usize::from_str` performs). -/
def digitsVal (l : List Char) : Nat :=
  l.foldl (fun acc c => acc * 10 + (c.toNat - 48)) 0

/-- `str::parse::<usize>()`: an optional leading `'+'`, then one or more
decimal digits whose value fits in 64 bits; anything else is a parse error. -/
def parse_usize (l : List Char) : Option Nat :=
  let t := if l.head? = some '+' then l.tail else l
  if t ≠ [] ∧ t.all Char.isDigit ∧ digitsVal t < 2 ^ 64 then some (digitsVal t)
  else none

/-- The single-character mode code written by `Recording::as_string`. -/
def modeCode : Mode → List Char
  | Mode.Classic => ['C']
  | Mode.Simple => ['S']

/-- The cell code written by `Recording::as_string` (`Empty` becomes the
empty string). -/
def cellCode : Cell → List Char
  | Cell.S => ['S']
  | Cell.O => ['O']
  | Cell.Empty => []

/-- One serialized move line `<cell-code>,<row>,<col>`. -/
def moveLine (m : Move) : List Char :=
  cellCode m.cell ++ ',' :: (natToDigits m.row ++ ',' :: natToDigits m.col)

/-- `Recording::as_string` from `recording.rs`: the header line
`<mode-code>,<board_size>` followed by one `\n`-prefixed line per move. -/
def Recording.as_string (r : Recording) : List Char :=
  r.moves.foldl (fun s m => s ++ '\n' :: moveLine m)
    (modeCode r.mode ++ ',' :: natToDigits r.board_size)

/-- `str::split` on a one-character separator: always returns at least one
(possibly empty) piece. -/
def splitOnChar (sep : Char) : List Char → List (List Char)
  | [] => [[]]
  | c :: rest =>
    match splitOnChar sep rest with
    | [] => [[]]
    | h :: t => if c = sep then [] :: h :: t else (c :: h) :: t

/-- Remove one trailing `'\r'` if present (the `\r\n` tolerance of both
`read_line` post-processing and `BufRead::lines`). -/
def stripCR (l : List Char) : List Char :=
  if l.getLast? = some '\r' then l.dropLast else l

/-- `BufRead::lines` on the remaining file contents: split at `'\n'`, strip a
trailing `'\r'` from every `'\n'`-terminated line, and drop the empty piece a
trailing newline would produce. -/
def rust_lines (l : List Char) : List (List Char) :=
  if l = [] then []
  else
    let p := splitOnChar '\n' l
    (p.dropLast.map stripCR) ++ (if p.getLast? = some [] then [] else [p.getLastD []])

/-- The first line as `read_line` plus the explicit `\n`/`\r` popping in
`Recording::read_from_file` produce it: everything before the first `'\n'`,
with a trailing `'\r'` removed only when a `'\n'` was actually read. -/
def first_line_of (content : List Char) : List Char :=
  let fl := content.takeWhile (fun c => c != '\n')
  if content.contains '\n' then stripCR fl else fl

/-- What remains of the file after `read_line` consumed the first line. -/
def rest_of (content : List Char) : List Char :=
  if content.contains '\n' then
    content.drop ((content.takeWhile (fun c => c != '\n')).length + 1)
  else []

/-- Possible outcomes of `Recording::read_from_file` on given file contents:
an index-out-of-bounds panic, `None`, or `Some` recording. -/
inductive RfResult
  | panicked
  | noResult
  | ok (r : Recording)
deriving DecidableEq, Repr

/-- The move-line loop of `Recording::read_from_file`: for each line, split at
`','`; indexing `line_vec[1]` panics when there are fewer than two pieces;
an unparseable row aborts with `None`; then `line_vec[2]` likewise; the cell
code defaults to `Empty`. -/
def read_moves : List (List Char) → Recording → RfResult
  | [], acc => RfResult.ok acc
  | line :: rest, acc =>
    let lv := splitOnChar ',' line
    if lv.length < 2 then RfResult.panicked
    else
      match parse_usize (lv.getD 1 []) with
      | none => RfResult.noResult
      | some row =>
        if lv.length < 3 then RfResult.panicked
        else
          match parse_usize (lv.getD 2 []) with
          | none => RfResult.noResult
          | some col =>
            let cell := match lv.getD 0 [] with
              | ['S'] => Cell.S
              | ['O'] => Cell.O
              | _ => Cell.Empty
            read_moves rest (acc.add_move cell row col)

/-- `Recording::read_from_file` from `recording.rs`, applied to the contents
of the file: parse the header line (indexing `first_line_vec[1]` panics when
the header has no `','`; an unparseable size returns `None`; an unknown mode
code defaults to `Classic`), then run the move-line loop. -/
def read_from_string (content : List Char) : RfResult :=
  let flv := splitOnChar ',' (first_line_of content)
  if flv.length < 2 then RfResult.panicked
  else
    match parse_usize (flv.getD 1 []) with
    | none => RfResult.noResult
    | some board_size =>
      let mode := match flv.getD 0 [] with
        | ['C'] => Mode.Classic
        | ['S'] => Mode.Simple
        | _ => Mode.Classic
      read_moves (rust_lines (rest_of content)) (Recording.new mode board_size)

/-- Modelled from the spec: the final `Game` owns a `Recording` and
`make_move` "append[s] the move to the Recording" on acceptance (§4.2 step 4)
and records nothing on rejection.  The provided `game.rs` predates this field
(only the caller in `main.rs` refers to `game.recording`), so the pairing and
the append are taken from the spec; the per-move game update is
`Game.make_move` from the source. -/
structure GameR where
  game : Game
  recording : Recording
deriving DecidableEq, Repr

/-- Modelled from the spec: `make_move` on the recording-owning game — the
source `Game.make_move`, plus `Recording::add_move` exactly on acceptance. -/
def GameR.make_move (gr : GameR) (row col : Nat) (input : Cell) : GameR :=
  if gr.game.accepts row col then
    { game := gr.game.make_move row col input
      recording := gr.recording.add_move input row col }
  else gr

/-- Apply a list of move requests in order. -/
def GameR.play (gr : GameR) (ms : List Move) : GameR :=
  ms.foldl (fun g m => g.make_move m.row m.col m.cell) gr

/-- The sublist of move requests that the engine accepts, each judged against
the game state at the moment it is played. -/
def accepted_moves : GameR → List Move → List Move
  | _, [] => []
  | gr, m :: rest =>
    let gr1 := gr.make_move m.row m.col m.cell
    if gr.game.accepts m.row m.col then m :: accepted_moves gr1 rest
    else accepted_moves gr1 rest

/-- Number of non-`Empty` cells actually on the board (for comparison with
the `cells_filled` counter). -/
def count_nonempty (b : List (List Cell)) : Nat :=
  (b.map (fun row => row.countP (fun c => c != Cell.Empty))).sum

/-- The SOS-pattern count as the specification describes it: a flat
enumeration of the straight 3-cell S-O-S lines through the written cell.  For
an `O`, one count per line (vertical, horizontal, both diagonals) whose two
neighbors one step before and after are in bounds and both `S`; for an `S`,
one count per direction of the eight whose immediate neighbor is `O` and the
cell one step beyond is `S`, both steps in bounds.  The written coordinate is
assumed in bounds, so a step toward a smaller index is in bounds exactly when
it does not cross zero, and a step toward a larger index exactly when it stays
below the board size. -/
def sos_lines_spec (b : List (List Cell)) (x y : Nat) : Nat :=
  let n := b.length
  match getc b y x with
  | Cell.O =>
      (if (1 ≤ y ∧ y + 1 < n)
          ∧ getc b (y-1) x = Cell.S ∧ getc b (y+1) x = Cell.S then 1 else 0)
    + (if (1 ≤ x ∧ x + 1 < n)
          ∧ getc b y (x+1) = Cell.S ∧ getc b y (x-1) = Cell.S then 1 else 0)
    + (if ((1 ≤ y ∧ y + 1 < n) ∧ (1 ≤ x ∧ x + 1 < n))
          ∧ getc b (y+1) (x+1) = Cell.S ∧ getc b (y-1) (x-1) = Cell.S then 1 else 0)
    + (if ((1 ≤ y ∧ y + 1 < n) ∧ (1 ≤ x ∧ x + 1 < n))
          ∧ getc b (y-1) (x+1) = Cell.S ∧ getc b (y+1) (x-1) = Cell.S then 1 else 0)
  | Cell.S =>
      (if 2 ≤ y ∧ getc b (y-1) x = Cell.O ∧ getc b (y-2) x = Cell.S then 1 else 0)
    + (if (2 ≤ y ∧ 2 ≤ x)
          ∧ getc b (y-1) (x-1) = Cell.O ∧ getc b (y-2) (x-2) = Cell.S then 1 else 0)
    + (if (2 ≤ y ∧ x + 2 < n)
          ∧ getc b (y-1) (x+1) = Cell.O ∧ getc b (y-2) (x+2) = Cell.S then 1 else 0)
    + (if y + 2 < n ∧ getc b (y+1) x = Cell.O ∧ getc b (y+2) x = Cell.S then 1 else 0)
    + (if (y + 2 < n ∧ 2 ≤ x)
          ∧ getc b (y+1) (x-1) = Cell.O ∧ getc b (y+2) (x-2) = Cell.S then 1 else 0)
    + (if (y + 2 < n ∧ x + 2 < n)
          ∧ getc b (y+1) (x+1) = Cell.O ∧ getc b (y+2) (x+2) = Cell.S then 1 else 0)
    + (if 2 ≤ x ∧ getc b y (x-1) = Cell.O ∧ getc b y (x-2) = Cell.S then 1 else 0)
    + (if x + 2 < n ∧ getc b y (x+1) = Cell.O ∧ getc b y (x+2) = Cell.S then 1 else 0)
  | Cell.Empty => 0

/-- A 3×3 Classic-mode game that the caller has started (as the UI's Start
button does, setting the status to `Playing`). -/
def g3x3_classic : Game :=
  { Game.new 3 Mode.Classic with state := State.Playing }

/-- A 3×3 Simple-mode game that the caller has started. -/
def g3x3_simple : Game :=
  { Game.new 3 Mode.Simple with state := State.Playing }

/-- The position after `S@(0,0)` (Left) and `O@(1,0)` (Right): column 0 holds
`S`, `O`, an empty cell, and it is Left's turn again. -/
def c1_g2 : Game :=
  (g3x3_classic.make_move 0 0 Cell.S).make_move 1 0 Cell.O

/-- The game after the nine scripted moves of the 3×3 Classic scenario:
`S@(0,0)`, `O@(1,0)`, `S@(2,0)`, `O@(0,1)`, `S@(1,1)`, `S@(2,1)`, `O@(0,2)`,
`S@(1,2)`, `S@(2,2)`. -/
def c6_final : Game :=
  ((((((((g3x3_classic.make_move 0 0 Cell.S).make_move 1 0 Cell.O).make_move
      2 0 Cell.S).make_move 0 1 Cell.O).make_move 1 1 Cell.S).make_move
      2 1 Cell.S).make_move 0 2 Cell.O).make_move 1 2 Cell.S).make_move
      2 2 Cell.S

/-- Nine accepted `Empty` moves, all at `(0,0)`, on a started 3×3 Classic
game: each one is accepted because the cell stays `Empty`. -/
def c10_demo : Game :=
  ((((((((g3x3_classic.make_move 0 0 Cell.Empty).make_move
      0 0 Cell.Empty).make_move 0 0 Cell.Empty).make_move
      0 0 Cell.Empty).make_move 0 0 Cell.Empty).make_move
      0 0 Cell.Empty).make_move 0 0 Cell.Empty).make_move
      0 0 Cell.Empty).make_move 0 0 Cell.Empty

/-- A concrete board with an `O` at the center of three S-O-S lines, used to
instantiate the pattern-count theorem. -/
def c2_board : List (List Cell) :=
  [[Cell.S, Cell.S, Cell.S], [Cell.O, Cell.O, Cell.O], [Cell.S, Cell.S, Cell.S]]

/-- A concrete recording used to instantiate the round-trip theorem. -/
def c7_rec : Recording :=
  { mode := Mode.Simple
    board_size := 7
    moves := [{ cell := Cell.S, row := 1, col := 2 },
              { cell := Cell.O, row := 0, col := 6 },
              { cell := Cell.S, row := 12, col := 0 }]
    current_move := 5 }

/-- A recording-owning game that has not been started, used to instantiate
the rejected-move theorem. -/
def c3_gr : GameR :=
  { game := Game.new 3 Mode.Classic, recording := Recording.new Mode.Classic 3 }

/-- A started recording-owning 3×3 Classic game, used to instantiate the
recording-append theorem. -/
def c9_gr : GameR :=
  { game := g3x3_classic, recording := Recording.new Mode.Classic 3 }

/-- A short script of move requests: two legal moves, one out-of-bounds
request, and one request at an occupied cell. -/
def c9_ms : List Move :=
  [{ cell := Cell.S, row := 0, col := 0 },
   { cell := Cell.O, row := 5, col := 5 },
   { cell := Cell.S, row := 0, col := 0 },
   { cell := Cell.O, row := 1, col := 0 }]

/-! ## Helper lemmas: decimal digits and `parse_usize` -/

theorem digitChar_toNat {d : Nat} (h : d < 10) : (digitChar d).toNat = 48 + d := by
  interval_cases d <;> decide

theorem digitChar_isDigit {d : Nat} (h : d < 10) : (digitChar d).isDigit = true := by
  interval_cases d <;> decide

theorem isDigit_ne {c : Char} (h : c.isDigit = true) :
    c ≠ ',' ∧ c ≠ '\n' ∧ c ≠ '\r' ∧ c ≠ '+' := by
  refine ⟨?_, ?_, ?_, ?_⟩ <;> rintro rfl <;> exact absurd h (by decide)

theorem natToDigits_lt10 {n : Nat} (h : n < 10) : natToDigits n = [digitChar n] := by
  unfold natToDigits
  cases n with
  | zero => simp [natToDigitsAux]
  | succ m => simp [natToDigitsAux, h]

theorem natToDigitsAux_shift (fuel : Nat) :
    ∀ n acc, n ≤ fuel → natToDigitsAux fuel n acc = natToDigits n ++ acc := by
  induction fuel using Nat.strong_induction_on with
  | _ fuel ih =>
    intro n acc hle
    by_cases h10 : n < 10
    · match fuel with
      | 0 =>
        interval_cases n
        simp [natToDigitsAux, natToDigits]
      | f + 1 => simp [natToDigitsAux, h10, natToDigits_lt10 h10]
    · match fuel with
      | 0 => omega
      | f + 1 =>
        have hstep : natToDigitsAux (f + 1) n acc
            = natToDigitsAux f (n / 10) (digitChar (n % 10) :: acc) := by
          simp [natToDigitsAux, h10]
        have h2 : natToDigitsAux f (n / 10) (digitChar (n % 10) :: acc)
            = natToDigits (n / 10) ++ (digitChar (n % 10) :: acc) :=
          ih f (by omega) _ _ (by omega)
        have h3 : natToDigitsAux (n - 1) (n / 10) [digitChar (n % 10)]
            = natToDigits (n / 10) ++ [digitChar (n % 10)] :=
          ih (n - 1) (by omega) _ _ (by omega)
        have hn : natToDigits n = natToDigits (n / 10) ++ [digitChar (n % 10)] := by
          have h4 : natToDigits n = natToDigitsAux (n - 1) (n / 10) [digitChar (n % 10)] := by
            unfold natToDigits
            match n, h10 with
            | m + 1, hx =>
              simp only [natToDigitsAux, Nat.add_sub_cancel]
              rw [if_neg hx]
          rw [h4, h3]
        rw [hstep, h2, hn, List.append_assoc]
        rfl

theorem natToDigits_step {n : Nat} (h : 10 ≤ n) :
    natToDigits n = natToDigits (n / 10) ++ [digitChar (n % 10)] := by
  match n, h with
  | m + 1, hx =>
    have h1 : natToDigits (m + 1)
        = natToDigitsAux m ((m + 1) / 10) [digitChar ((m + 1) % 10)] := by
      unfold natToDigits
      simp only [natToDigitsAux]
      rw [if_neg (by omega)]
    rw [h1, natToDigitsAux_shift m _ _ (by omega)]

theorem natToDigits_ne_nil (n : Nat) : natToDigits n ≠ [] := by
  by_cases h : n < 10
  · simp [natToDigits_lt10 h]
  · rw [natToDigits_step (by omega)]
    simp

theorem natToDigits_all_isDigit (n : Nat) : ∀ c ∈ natToDigits n, c.isDigit = true := by
  induction n using Nat.strong_induction_on with
  | _ n ih =>
    by_cases h : n < 10
    · rw [natToDigits_lt10 h]
      intro c hc
      rw [List.mem_singleton] at hc
      subst hc
      exact digitChar_isDigit h
    · rw [natToDigits_step (by omega)]
      intro c hc
      rcases List.mem_append.mp hc with h1 | h1
      · exact ih (n / 10) (Nat.div_lt_self (by omega) (by omega)) c h1
      · rw [List.mem_singleton] at h1
        subst h1
        exact digitChar_isDigit (Nat.mod_lt _ (by omega))

theorem digitsVal_append_singleton (l : List Char) (c : Char) :
    digitsVal (l ++ [c]) = digitsVal l * 10 + (c.toNat - 48) := by
  simp [digitsVal, List.foldl_append]

theorem digitsVal_natToDigits (n : Nat) : digitsVal (natToDigits n) = n := by
  induction n using Nat.strong_induction_on with
  | _ n ih =>
    by_cases h : n < 10
    · rw [natToDigits_lt10 h]
      simp [digitsVal, digitChar_toNat h]
    · rw [natToDigits_step (by omega), digitsVal_append_singleton,
        ih (n / 10) (Nat.div_lt_self (by omega) (by omega)),
        digitChar_toNat (Nat.mod_lt _ (by omega))]
      omega

theorem parse_usize_natToDigits {n : Nat} (h : n < 2 ^ 64) :
    parse_usize (natToDigits n) = some n := by
  have hne := natToDigits_ne_nil n
  have hall := natToDigits_all_isDigit n
  have hhead : (natToDigits n).head? ≠ some '+' := by
    match hd : natToDigits n, hne with
    | c :: rest, _ =>
      have : c.isDigit = true := hall c (by rw [hd]; exact List.mem_cons_self c rest)
      have := (isDigit_ne this).2.2.2
      simp [this]
  unfold parse_usize
  rw [if_neg hhead]
  rw [if_pos ⟨hne, List.all_eq_true.mpr hall, by rw [digitsVal_natToDigits]; exact h⟩,
    digitsVal_natToDigits]

/-! ## Helper lemmas: splitting, line iteration -/

theorem splitOnChar_ne_nil (sep : Char) (l : List Char) : splitOnChar sep l ≠ [] := by
  cases l with
  | nil => simp [splitOnChar]
  | cons c rest =>
    simp only [splitOnChar]
    cases splitOnChar sep rest with
    | nil => simp
    | cons h t => by_cases hc : c = sep <;> simp [hc]

theorem splitOnChar_not_mem {sep : Char} {l : List Char} (h : sep ∉ l) :
    splitOnChar sep l = [l] := by
  induction l with
  | nil => simp [splitOnChar]
  | cons c rest ih =>
    rw [List.mem_cons, not_or] at h
    simp only [splitOnChar, List.append_eq, ih h.2]
    rw [if_neg (fun hc => h.1 hc.symm)]

theorem splitOnChar_append {sep : Char} {a b : List Char} (h : sep ∉ a) :
    splitOnChar sep (a ++ sep :: b) = a :: splitOnChar sep b := by
  induction a with
  | nil =>
    simp only [List.nil_append, splitOnChar]
    cases hsb : splitOnChar sep b with
    | nil => exact absurd hsb (splitOnChar_ne_nil sep b)
    | cons q qs => simp
  | cons c a' ih =>
    rw [List.mem_cons, not_or] at h
    have ha : (c :: a') ++ sep :: b = c :: (a' ++ sep :: b) := List.cons_append c a' _
    rw [ha]
    simp only [splitOnChar, List.append_eq, ih h.2]
    rw [if_neg (fun hc => h.1 hc.symm)]

theorem stripCR_of_not_mem {l : List Char} (h : '\r' ∉ l) : stripCR l = l := by
  unfold stripCR
  cases hg : l.getLast? with
  | none => simp
  | some c =>
    by_cases hc : c = '\r'
    · subst hc
      exact absurd (List.mem_of_mem_getLast? hg) h
    · rw [if_neg (by simp [hg, hc])]

theorem rust_lines_nil : rust_lines [] = [] := by
  simp [rust_lines]

theorem rust_lines_eq {l : List Char} (h : l ≠ []) :
    rust_lines l = (splitOnChar '\n' l).dropLast.map stripCR
      ++ (if (splitOnChar '\n' l).getLast? = some []
          then [] else [(splitOnChar '\n' l).getLastD []]) := by
  unfold rust_lines
  rw [if_neg h]

theorem rust_lines_no_newline {l : List Char} (h1 : l ≠ []) (h2 : '\n' ∉ l) :
    rust_lines l = [l] := by
  rw [rust_lines_eq h1, splitOnChar_not_mem h2]
  simp [h1]

theorem rust_lines_cons {l rest : List Char} (h2 : '\n' ∉ l) (h3 : '\r' ∉ l) :
    rust_lines (l ++ '\n' :: rest) = l :: rust_lines rest := by
  have hne : l ++ '\n' :: rest ≠ [] := by simp
  rw [rust_lines_eq hne, splitOnChar_append h2]
  cases hp : splitOnChar '\n' rest with
  | nil => exact absurd hp (splitOnChar_ne_nil '\n' rest)
  | cons q qs =>
    by_cases hr : rest = []
    · subst hr
      simp only [splitOnChar] at hp
      obtain ⟨rfl, rfl⟩ : q = [] ∧ qs = [] := by
        constructor <;> injection hp with h1 h2 <;> simp_all
      simp [stripCR_of_not_mem h3, rust_lines_nil]
    · rw [rust_lines_eq hr, hp]
      simp only [List.dropLast_cons₂, List.map_cons, List.getLast?_cons_cons,
        List.cons_append, List.getLastD_eq_getLast?, stripCR_of_not_mem h3]

theorem takeWhile_append_cons {a b : List Char} {x : Char} (p : Char → Bool)
    (ha : ∀ c ∈ a, p c = true) (hx : p x = false) :
    (a ++ x :: b).takeWhile p = a := by
  induction a with
  | nil => simp [List.takeWhile, hx]
  | cons c a' ih =>
    have hc : p c = true := ha c (List.mem_cons_self c a')
    have he : (c :: a') ++ x :: b = c :: (a' ++ x :: b) := List.cons_append c a' _
    rw [he]
    simp only [List.takeWhile, hc]
    rw [ih (fun d hd => ha d (List.mem_cons_of_mem c hd))]

theorem drop_append_cons (a : List Char) (x : Char) (b : List Char) :
    (a ++ x :: b).drop (a.length + 1) = b := by
  have : a ++ x :: b = (a ++ [x]) ++ b := by simp
  rw [this, show a.length + 1 = (a ++ [x]).length + 0 by simp, List.drop_append]
  simp

/-! ## Helper lemmas: shape of serialized recordings -/

theorem takeWhile_all {l : List Char} {p : Char → Bool} (h : ∀ c ∈ l, p c = true) :
    l.takeWhile p = l := by
  induction l with
  | nil => rfl
  | cons c rest ih =>
    simp only [List.takeWhile, h c (List.mem_cons_self c rest)]
    rw [ih (fun d hd => h d (List.mem_cons_of_mem c hd))]

theorem contains_false {l : List Char} {c : Char} (h : c ∉ l) : l.contains c = false := by
  simp [List.contains, List.elem_eq_mem, h]

theorem contains_true {l : List Char} {c : Char} (h : c ∈ l) : l.contains c = true := by
  simp [List.contains, List.elem_eq_mem, h]

theorem not_mem_natToDigits (n : Nat) :
    ',' ∉ natToDigits n ∧ '\n' ∉ natToDigits n ∧ '\r' ∉ natToDigits n := by
  refine ⟨?_, ?_, ?_⟩ <;> intro hmem <;>
    exact absurd (natToDigits_all_isDigit n _ hmem) (by decide)

theorem not_mem_cellCode (c : Cell) :
    ',' ∉ cellCode c ∧ '\n' ∉ cellCode c ∧ '\r' ∉ cellCode c := by
  cases c <;> exact ⟨by decide, by decide, by decide⟩

theorem not_mem_modeCode (m : Mode) :
    ',' ∉ modeCode m ∧ '\n' ∉ modeCode m ∧ '\r' ∉ modeCode m := by
  cases m <;> exact ⟨by decide, by decide, by decide⟩

theorem not_mem_moveLine (m : Move) : '\n' ∉ moveLine m ∧ '\r' ∉ moveLine m := by
  constructor <;> intro h <;> unfold moveLine at h <;>
    rcases List.mem_append.mp h with h1 | h1
  · exact (not_mem_cellCode m.cell).2.1 h1
  · rcases List.mem_cons.mp h1 with he | h2
    · exact absurd he (by decide)
    · rcases List.mem_append.mp h2 with h3 | h3
      · exact (not_mem_natToDigits m.row).2.1 h3
      · rcases List.mem_cons.mp h3 with he | h4
        · exact absurd he (by decide)
        · exact (not_mem_natToDigits m.col).2.1 h4
  · exact (not_mem_cellCode m.cell).2.2 h1
  · rcases List.mem_cons.mp h1 with he | h2
    · exact absurd he (by decide)
    · rcases List.mem_append.mp h2 with h3 | h3
      · exact (not_mem_natToDigits m.row).2.2 h3
      · rcases List.mem_cons.mp h3 with he | h4
        · exact absurd he (by decide)
        · exact (not_mem_natToDigits m.col).2.2 h4

theorem not_mem_header (mo : Mode) (n : Nat) (c : Char) (hc : c = '\n' ∨ c = '\r') :
    c ∉ modeCode mo ++ ',' :: natToDigits n := by
  intro h
  rcases List.mem_append.mp h with h1 | h1
  · rcases hc with rfl | rfl
    · exact (not_mem_modeCode mo).2.1 h1
    · exact (not_mem_modeCode mo).2.2 h1
  · rcases List.mem_cons.mp h1 with he | h2
    · rcases hc with rfl | rfl <;> exact absurd he (by decide)
    · rcases hc with rfl | rfl
      · exact (not_mem_natToDigits n).2.1 h2
      · exact (not_mem_natToDigits n).2.2 h2

theorem moveLine_ne_nil (m : Move) : moveLine m ≠ [] := by
  unfold moveLine
  simp

theorem splitOnChar_moveLine (m : Move) :
    splitOnChar ',' (moveLine m)
      = [cellCode m.cell, natToDigits m.row, natToDigits m.col] := by
  unfold moveLine
  rw [splitOnChar_append (not_mem_cellCode m.cell).1,
    splitOnChar_append (not_mem_natToDigits m.row).1,
    splitOnChar_not_mem (not_mem_natToDigits m.col).1]

theorem splitOnChar_header (mo : Mode) (n : Nat) :
    splitOnChar ',' (modeCode mo ++ ',' :: natToDigits n)
      = [modeCode mo, natToDigits n] := by
  rw [splitOnChar_append (not_mem_modeCode mo).1,
    splitOnChar_not_mem (not_mem_natToDigits n).1]

theorem foldl_chunks (ms : List Move) : ∀ init : List Char,
    ms.foldl (fun s m => s ++ '\n' :: moveLine m) init
      = init ++ (ms.map (fun m => '\n' :: moveLine m)).flatten := by
  induction ms with
  | nil => intro init; simp
  | cons m ms' ih =>
    intro init
    simp only [List.foldl_cons, List.map_cons, List.flatten_cons]
    rw [ih]
    simp [List.append_assoc]

theorem as_string_eq (r : Recording) :
    r.as_string = (modeCode r.mode ++ ',' :: natToDigits r.board_size)
      ++ (r.moves.map (fun m => '\n' :: moveLine m)).flatten := by
  unfold Recording.as_string
  rw [foldl_chunks]

theorem rust_lines_body (m : Move) (ms : List Move) :
    rust_lines (moveLine m ++ (ms.map (fun m' => '\n' :: moveLine m')).flatten)
      = (m :: ms).map moveLine := by
  induction ms generalizing m with
  | nil =>
    simp only [List.map_nil, List.flatten_nil, List.append_nil]
    rw [rust_lines_no_newline (moveLine_ne_nil m) (not_mem_moveLine m).1]
    simp
  | cons m' ms' ih =>
    simp only [List.map_cons, List.flatten_cons]
    have ha : moveLine m ++ ('\n' :: moveLine m'
          ++ (ms'.map (fun x => '\n' :: moveLine x)).flatten)
        = moveLine m ++ '\n'
          :: (moveLine m' ++ (ms'.map (fun x => '\n' :: moveLine x)).flatten) := by
      simp
    rw [ha, rust_lines_cons (not_mem_moveLine m).1 (not_mem_moveLine m).2, ih m']
    simp

theorem read_moves_append (ms : List Move) : ∀ acc : Recording,
    (∀ m ∈ ms, m.cell = Cell.S ∨ m.cell = Cell.O) →
    (∀ m ∈ ms, m.row < 2 ^ 64 ∧ m.col < 2 ^ 64) →
    read_moves (ms.map moveLine) acc
      = RfResult.ok { acc with moves := acc.moves ++ ms } := by
  induction ms with
  | nil =>
    intro acc _ _
    simp [read_moves]
  | cons m ms' ih =>
    intro acc h1 h2
    have hrow := parse_usize_natToDigits (h2 m (List.mem_cons_self m ms')).1
    have hcol := parse_usize_natToDigits (h2 m (List.mem_cons_self m ms')).2
    have hih := ih (acc.add_move m.cell m.row m.col)
      (fun x hx => h1 x (List.mem_cons_of_mem m hx))
      (fun x hx => h2 x (List.mem_cons_of_mem m hx))
    have hmv : { cell := m.cell, row := m.row, col := m.col : Move } = m := rfl
    rcases h1 m (List.mem_cons_self m ms') with hc | hc
    · simp only [List.map_cons, read_moves, splitOnChar_moveLine,
        List.getD_cons_succ, List.getD_cons_zero, hrow, hcol, hc, cellCode,
        List.length_cons, List.length_nil]
      rw [if_neg (by omega), if_neg (by omega), ← hc, hih]
      simp [Recording.add_move, hmv, List.append_assoc]
    · simp only [List.map_cons, read_moves, splitOnChar_moveLine,
        List.getD_cons_succ, List.getD_cons_zero, hrow, hcol, hc, cellCode,
        List.length_cons, List.length_nil]
      rw [if_neg (by omega), if_neg (by omega), ← hc, hih]
      simp [Recording.add_move, hmv, List.append_assoc]


theorem header_all_ne_newline (mo : Mode) (n : Nat) :
    ∀ c ∈ modeCode mo ++ ',' :: natToDigits n, (c != '\n') = true := by
  intro c hcm
  rw [bne_iff_ne]
  rintro rfl
  exact not_mem_header mo n '\n' (Or.inl rfl) hcm

theorem first_line_as_string (r : Recording) :
    first_line_of r.as_string = modeCode r.mode ++ ',' :: natToDigits r.board_size := by
  rw [as_string_eq]
  cases hm : r.moves with
  | nil =>
    simp only [List.map_nil, List.flatten_nil, List.append_nil]
    unfold first_line_of
    rw [contains_false (not_mem_header r.mode r.board_size '\n' (Or.inl rfl))]
    simp only [Bool.false_eq_true, if_false]
    exact takeWhile_all (header_all_ne_newline r.mode r.board_size)
  | cons m ms =>
    have ha : (modeCode r.mode ++ ',' :: natToDigits r.board_size)
          ++ ((m :: ms).map (fun x => '\n' :: moveLine x)).flatten
        = (modeCode r.mode ++ ',' :: natToDigits r.board_size)
          ++ '\n' :: (moveLine m ++ (ms.map (fun x => '\n' :: moveLine x)).flatten) := by
      simp
    rw [ha]
    unfold first_line_of
    rw [contains_true (by simp), if_pos rfl,
      takeWhile_append_cons _ (header_all_ne_newline r.mode r.board_size) (by decide),
      stripCR_of_not_mem (not_mem_header r.mode r.board_size '\r' (Or.inr rfl))]

theorem rest_of_as_string_nil (r : Recording) (hm : r.moves = []) :
    rest_of r.as_string = [] := by
  rw [rest_of, as_string_eq, hm]
  simp only [List.map_nil, List.flatten_nil, List.append_nil]
  rw [contains_false (not_mem_header r.mode r.board_size '\n' (Or.inl rfl))]
  simp

theorem rest_of_as_string_cons (r : Recording) (m : Move) (ms : List Move)
    (hm : r.moves = m :: ms) :
    rest_of r.as_string = moveLine m ++ (ms.map (fun x => '\n' :: moveLine x)).flatten := by
  rw [rest_of, as_string_eq, hm]
  have ha : (modeCode r.mode ++ ',' :: natToDigits r.board_size)
        ++ ((m :: ms).map (fun x => '\n' :: moveLine x)).flatten
      = (modeCode r.mode ++ ',' :: natToDigits r.board_size)
        ++ '\n' :: (moveLine m ++ (ms.map (fun x => '\n' :: moveLine x)).flatten) := by
    simp
  rw [ha, contains_true (by simp), if_pos rfl,
    takeWhile_append_cons _ (header_all_ne_newline r.mode r.board_size) (by decide),
    drop_append_cons]

/-- C7: for every Recording whose moves all have cell `S` or `O` (with its
`usize` fields in range), deserializing the text produced by serializing it
yields a Recording with the same mode, the same board size, and the identical
ordered move sequence (and a reset replay cursor). -/
theorem C7_serialize_roundtrip (r : Recording)
    (h1 : ∀ m ∈ r.moves, m.cell = Cell.S ∨ m.cell = Cell.O)
    (h2 : r.board_size < 2 ^ 64)
    (h3 : ∀ m ∈ r.moves, m.row < 2 ^ 64 ∧ m.col < 2 ^ 64) :
    read_from_string r.as_string
      = RfResult.ok { mode := r.mode, board_size := r.board_size,
                      moves := r.moves, current_move := 0 } := by
  have hparse := parse_usize_natToDigits h2
  cases hmv : r.moves with
  | nil =>
    simp only [read_from_string, first_line_as_string, splitOnChar_header,
      List.length_cons, List.length_nil, List.getD_cons_succ, List.getD_cons_zero,
      hparse, rest_of_as_string_nil r hmv, rust_lines_nil, read_moves]
    rw [if_neg (by omega)]
    cases r.mode <;> simp [modeCode, Recording.new, hmv]
  | cons m ms =>
    rw [hmv] at h1 h3
    simp only [read_from_string, first_line_as_string, splitOnChar_header,
      List.length_cons, List.length_nil, List.getD_cons_succ, List.getD_cons_zero,
      hparse, rest_of_as_string_cons r m ms hmv, rust_lines_body]
    rw [if_neg (by omega)]
    cases r.mode <;> simp only [modeCode] <;>
      rw [read_moves_append (m :: ms) _ h1 h3] <;>
      simp [Recording.new, hmv]

theorem read_moves_total : ∀ (lines : List (List Char)) (acc : Recording),
    (∀ line ∈ lines, 3 ≤ (splitOnChar ',' line).length) →
    read_moves lines acc = RfResult.noResult
      ∨ ∃ rec, read_moves lines acc = RfResult.ok rec := by
  intro lines
  induction lines with
  | nil => intro acc _; exact Or.inr ⟨acc, rfl⟩
  | cons line rest ih =>
    intro acc h
    have h3 := h line (List.mem_cons_self line rest)
    simp only [read_moves]
    rw [if_neg (by omega)]
    cases hrow : parse_usize ((splitOnChar ',' line).getD 1 []) with
    | none => exact Or.inl rfl
    | some row =>
      simp only []
      rw [if_neg (by omega)]
      cases hcol : parse_usize ((splitOnChar ',' line).getD 2 []) with
      | none => exact Or.inl rfl
      | some col =>
        simp only []
        exact ih _ (fun l hl => h l (List.mem_cons_of_mem line hl))

/-- C8 (amended): when the header line has at least two comma-separated
fields and every move line has at least three, deserialization is
all-or-nothing: an unparseable numeric field yields no result, and otherwise
a complete Recording is returned.  (Without those field-count conditions the
indexing `first_line_vec[1]` / `line_vec[1]` / `line_vec[2]` panics, so the
original claim's "never a panic" is refuted by `C8_counterexample`.) -/
theorem C8_all_or_nothing (content : List Char)
    (hh : 2 ≤ (splitOnChar ',' (first_line_of content)).length)
    (hl : ∀ line ∈ rust_lines (rest_of content),
            3 ≤ (splitOnChar ',' line).length) :
    read_from_string content = RfResult.noResult
      ∨ ∃ rec, read_from_string content = RfResult.ok rec := by
  simp only [read_from_string]
  rw [if_neg (by omega)]
  cases hsz : parse_usize ((splitOnChar ',' (first_line_of content)).getD 1 []) with
  | none => exact Or.inl rfl
  | some board_size => exact read_moves_total _ _ hl

/-- C8 counterexample: on the one-character file contents `C` — a header line
with no comma — `Recording::read_from_file` neither returns no result nor any
Recording: it panics indexing `first_line_vec[1]`.  This refutes the claim
that deserialization is total on every input text. -/
theorem C8_counterexample :
    read_from_string ['C'] ≠ RfResult.noResult
      ∧ ∀ rec : Recording, read_from_string ['C'] ≠ RfResult.ok rec := by
  have h : read_from_string ['C'] = RfResult.panicked := by decide
  rw [h]
  exact ⟨by simp, fun rec => by simp⟩

/-! ## Helper lemmas: the game engine -/

theorem set_getD_empty (l : List Cell) : ∀ x, l.getD x Cell.Empty = Cell.Empty →
    l.set x Cell.Empty = l := by
  induction l with
  | nil => intro x _; rfl
  | cons a l' ih =>
    intro x h
    cases x with
    | zero =>
      simp only [List.getD_cons_zero] at h
      simp [List.set, h]
    | succ x' =>
      simp only [List.getD_cons_succ] at h
      simp only [List.set]
      rw [ih x' h]

theorem setc_empty (b : List (List Cell)) : ∀ y x, getc b y x = Cell.Empty →
    setc b y x Cell.Empty = b := by
  induction b with
  | nil => intro y x _; rfl
  | cons r b' ih =>
    intro y x h
    unfold getc at h
    unfold setc
    cases y with
    | zero =>
      simp only [List.getD_cons_zero] at h ⊢
      simp only [List.set]
      rw [set_getD_empty r x h]
    | succ y' =>
      simp only [List.getD_cons_succ] at h ⊢
      simp only [List.set]
      have := ih y' x h
      unfold setc at this
      rw [this]

theorem sos_made_of_empty {b : List (List Cell)} {x y : Nat}
    (h : getc b y x = Cell.Empty) : sos_made b x y = 0 := by
  simp only [sos_made, h]

/-- C1 (amended): `make_move` switches the turn to the other player on every
accepted move, whether or not the move completed an SOS pattern.  (The claim's
score-again rule is refuted by `C1_counterexample`: `game.rs` calls
`switch_turn` unconditionally at the end of the accepted branch.) -/
theorem C1_turn_always_switches (g : Game) (row col : Nat) (input : Cell)
    (h : g.accepts row col = true) :
    (g.make_move row col input).turn = switch_turn g.turn := by
  simp [Game.make_move, h]

/-- C1 counterexample: on a started 3×3 Classic game, after `S@(0,0)` (Left)
and `O@(1,0)` (Right), Left's accepted move `S@(2,0)` completes one vertical
S-O-S (its score increases to 1), yet the turn still switches from Left to
Right — refuting "leaves the turn unchanged iff the count is at least 1". -/
theorem C1_counterexample :
    c1_g2.state = State.Playing
    ∧ c1_g2.accepts 2 0 = true
    ∧ c1_g2.turn = Turn.Left
    ∧ sos_made (setc c1_g2.board 2 0 Cell.S) 0 2 = 1
    ∧ (c1_g2.make_move 2 0 Cell.S).left_score = 1
    ∧ (c1_g2.make_move 2 0 Cell.S).turn = Turn.Right := by
  decide

/-- C3: a move rejected by the acceptance check (out of bounds, occupied
cell, or status not `Playing`) is a silent no-op: board, both scores, turn,
status, filled-cell count, and the Recording's length are all unchanged. -/
theorem C3_rejected_noop (gr : GameR) (row col : Nat) (input : Cell)
    (h : gr.game.accepts row col = false) :
    (gr.make_move row col input).game.board = gr.game.board
    ∧ (gr.make_move row col input).game.left_score = gr.game.left_score
    ∧ (gr.make_move row col input).game.right_score = gr.game.right_score
    ∧ (gr.make_move row col input).game.turn = gr.game.turn
    ∧ (gr.make_move row col input).game.state = gr.game.state
    ∧ (gr.make_move row col input).game.cells_filled = gr.game.cells_filled
    ∧ (gr.make_move row col input).recording.moves.length
        = gr.recording.moves.length := by
  have hid : gr.make_move row col input = gr := by
    simp [GameR.make_move, h]
  rw [hid]
  exact ⟨rfl, rfl, rfl, rfl, rfl, rfl, rfl⟩

/-- C10: an accepted move that plays `Cell::Empty` on an empty in-bounds cell
leaves the board unchanged (the cell stays `Empty`), still increments the
filled-cell counter, adds nothing to either score, and switches the turn;
consequently (the closing conjuncts, on the concrete `c10_demo` run of nine
`Empty` moves at `(0,0)`) the counter reaches board-full and a terminal
status while the board holds no non-`Empty` cell at all. -/
theorem C10_empty_move (g : Game) (row col : Nat)
    (hs : g.state = State.Playing)
    (hv : g.valid_cell col row = true)
    (he : getc g.board row col = Cell.Empty)
    (hf : g.cells_filled + 1 < 2 ^ 64)
    (hl : g.left_score < 2 ^ 32) (hr : g.right_score < 2 ^ 32) :
    (g.make_move row col Cell.Empty).board = g.board
    ∧ (g.make_move row col Cell.Empty).cells_filled = g.cells_filled + 1
    ∧ (g.make_move row col Cell.Empty).left_score = g.left_score
    ∧ (g.make_move row col Cell.Empty).right_score = g.right_score
    ∧ (g.make_move row col Cell.Empty).turn = switch_turn g.turn
    ∧ c10_demo.state = State.Draw
    ∧ c10_demo.cells_filled = 3 ^ 2
    ∧ count_nonempty c10_demo.board = 0 := by
  have hacc : g.accepts row col = true := by
    simp [Game.accepts, hv, he, hs]
  have hb : setc g.board row col Cell.Empty = g.board := setc_empty _ _ _ he
  have hsos : sos_made g.board col row = 0 := sos_made_of_empty he
  refine ⟨?_, ?_, ?_, ?_, ?_, by decide, by decide, by decide⟩ <;>
    cases ht : g.turn <;>
    simp [Game.make_move, hacc, hb, hsos, ht] <;>
    omega

/-- C4: in a Classic-mode game, after every accepted move the derived status
is `Playing` whenever the filled-cell count is below size², regardless of the
scores; at a filled-cell count of exactly size² the status is the score
comparison (left>right → `LeftWin`, right>left → `RightWin`, equal →
`Draw`). -/
theorem C4_classic_status (g : Game) (row col : Nat) (input : Cell)
    (hm : g.mode = Mode.Classic) (h : g.accepts row col = true) :
    ((g.make_move row col input).cells_filled < g.board.length ^ 2 →
      (g.make_move row col input).state = State.Playing)
    ∧ ((g.make_move row col input).cells_filled = g.board.length ^ 2 →
      (g.make_move row col input).state =
        (if (g.make_move row col input).right_score
              < (g.make_move row col input).left_score then State.LeftWin
         else if (g.make_move row col input).left_score
              < (g.make_move row col input).right_score then State.RightWin
         else State.Draw)) := by
  cases ht : g.turn <;>
    constructor <;>
    intro hc <;>
    simp only [Game.make_move, h, if_true, ht, get_game_state, hm,
      classic_get_game_state, Game.board_full, setc, List.length_set,
      beq_iff_eq, gt_iff_lt] at hc ⊢ <;>
    split_ifs with h1 h2 <;>
    simp_all

/-- C5: in a Simple-mode game, after every accepted move the derived status
is `LeftWin` as soon as the left score exceeds the right one and `RightWin`
as soon as the right score exceeds the left one, even with empty cells
remaining; with equal scores it is `Draw` at a full board (filled count =
size²) and `Playing` otherwise. -/
theorem C5_simple_status (g : Game) (row col : Nat) (input : Cell)
    (hm : g.mode = Mode.Simple) (h : g.accepts row col = true) :
    ((g.make_move row col input).right_score
        < (g.make_move row col input).left_score →
      (g.make_move row col input).state = State.LeftWin)
    ∧ ((g.make_move row col input).left_score
        < (g.make_move row col input).right_score →
      (g.make_move row col input).state = State.RightWin)
    ∧ ((g.make_move row col input).left_score
          = (g.make_move row col input).right_score →
      (g.make_move row col input).cells_filled = g.board.length ^ 2 →
      (g.make_move row col input).state = State.Draw)
    ∧ ((g.make_move row col input).left_score
          = (g.make_move row col input).right_score →
      (g.make_move row col input).cells_filled ≠ g.board.length ^ 2 →
      (g.make_move row col input).state = State.Playing) := by
  have hkey : (g.make_move row col input).state
      = (if (g.make_move row col input).right_score
            < (g.make_move row col input).left_score then State.LeftWin
         else if (g.make_move row col input).left_score
            < (g.make_move row col input).right_score then State.RightWin
         else if (g.make_move row col input).cells_filled
            = g.board.length ^ 2 then State.Draw
         else State.Playing) := by
    cases ht : g.turn <;>
      simp only [Game.make_move, h, if_true, ht, get_game_state, hm,
        simple_get_game_state, Game.board_full, setc, List.length_set,
        beq_iff_eq, gt_iff_lt]
  refine ⟨fun hc => ?_, fun hc => ?_, fun hc hc2 => ?_, fun hc hc2 => ?_⟩ <;>
    rw [hkey] <;> split_ifs <;> first | rfl | omega

/-- C2: for every board and every just-written in-bounds coordinate, the
count returned by `sos_made` equals the specification's flat enumeration of
the S-O-S lines through that coordinate: per line through a placed `O`, per
direction of the eight from a placed `S`, with simultaneously completed
patterns all counted. -/
theorem C2_sos_count (b : List (List Cell)) (x y : Nat)
    (hx : x < b.length) (hy : y < b.length) :
    sos_made b x y = sos_lines_spec b x y := by
  have ey : (1 ≤ y ∧ y + 1 < b.length) ↔ (0 < y ∧ y < b.length - 1) := by omega
  have ex : (1 ≤ x ∧ x + 1 < b.length) ↔ (0 < x ∧ x < b.length - 1) := by omega
  have e1 : (2 ≤ y) ↔ (1 < y) := by omega
  have e2 : (y + 2 < b.length) ↔ (y < b.length - 2) := by omega
  have e3 : (2 ≤ x) ↔ (1 < x) := by omega
  have e4 : (x + 2 < b.length) ↔ (x < b.length - 2) := by omega
  cases hc : getc b y x with
  | Empty => simp only [sos_made, sos_lines_spec, hc]
  | O =>
    simp only [sos_made, sos_lines_spec, hc, gt_iff_lt, ey, ex]
    by_cases hgy : 0 < y ∧ y < b.length - 1
    all_goals by_cases hgx : 0 < x ∧ x < b.length - 1 <;>
      simp [hgy, hgx] <;>
      omega
  | S =>
    simp only [sos_made, sos_lines_spec, hc, gt_iff_lt, e1, e2, e3, e4]
    by_cases hg1 : 1 < y <;>
      by_cases hg2 : y < b.length - 2 <;>
      by_cases hg3 : 1 < x <;>
      by_cases hg4 : x < b.length - 2 <;>
      simp [hg1, hg2, hg3, hg4] <;>
      omega

/-- C6 counterexample: the nine scripted moves on a started 3×3 Classic game
do end in `LeftWin`, but with `left_score = 1` (the single vertical S-O-S in
column 0, scored by Left's third move) — not the claimed
`left_score = 2` — so the claimed final triple does not hold. -/
theorem C6_counterexample :
    ¬ (c6_final.state = State.LeftWin ∧ c6_final.left_score = 2
        ∧ c6_final.right_score = 0) := by
  decide

/-- C6 (amended): the nine scripted moves on a started 3×3 Classic game fill
the board (filled count 9 = 3²) and end with terminal status `LeftWin`,
`left_score = 1`, and `right_score = 0`. -/
theorem C6_classic_scenario :
    c6_final.state = State.LeftWin
    ∧ c6_final.left_score = 1
    ∧ c6_final.right_score = 0
    ∧ c6_final.cells_filled = 3 ^ 2 := by
  decide

/-- C9: every accepted move appends exactly one `Move` — the played cell,
row, and column — to the owned Recording (first conjunct), and after any
script of move requests the Recording's move sequence extends the initial one
by exactly the accepted moves, in play order (second conjunct). -/
theorem C9_recording_append (gr : GameR) (ms : List Move) (row col : Nat)
    (input : Cell) :
    (gr.game.accepts row col = true →
      (gr.make_move row col input).recording.moves
        = gr.recording.moves ++ [{ cell := input, row := row, col := col }])
    ∧ (gr.play ms).recording.moves
        = gr.recording.moves ++ accepted_moves gr ms := by
  constructor
  · intro h
    simp [GameR.make_move, h, Recording.add_move]
  · induction ms generalizing gr with
    | nil => simp [GameR.play, accepted_moves]
    | cons m ms' ih =>
      have hmv : { cell := m.cell, row := m.row, col := m.col : Move } = m := rfl
      have hstep : GameR.play gr (m :: ms')
          = GameR.play (gr.make_move m.row m.col m.cell) ms' := by
        simp [GameR.play]
      rw [hstep, ih]
      by_cases h : gr.game.accepts m.row m.col
      · simp only [accepted_moves, h, if_true, GameR.make_move,
          Recording.add_move, hmv]
        simp
      · simp only [accepted_moves, h, if_false, GameR.make_move]
        simp [h]

/-! ## Witnesses: each hypothesis-bearing claim theorem applied at a
concrete input -/

/-- Witness for C1 (amended): Left's scoring move `S@(2,0)` on `c1_g2`. -/
theorem C1_turn_always_switches_witness :
    c1_g2.accepts 2 0 = true
    ∧ (c1_g2.make_move 2 0 Cell.S).turn = switch_turn c1_g2.turn :=
  ⟨by decide, C1_turn_always_switches c1_g2 2 0 Cell.S (by decide)⟩

/-- Witness for C2: the center `O` of `c2_board` completes three lines. -/
theorem C2_sos_count_witness :
    (1 < c2_board.length ∧ 1 < c2_board.length)
    ∧ sos_made c2_board 1 1 = sos_lines_spec c2_board 1 1 :=
  ⟨⟨by decide, by decide⟩, C2_sos_count c2_board 1 1 (by decide) (by decide)⟩

/-- Witness for C3: a move on the not-yet-started game `c3_gr` is rejected
and changes nothing. -/
theorem C3_rejected_noop_witness :
    c3_gr.game.accepts 0 0 = false
    ∧ ((c3_gr.make_move 0 0 Cell.S).game.board = c3_gr.game.board
      ∧ (c3_gr.make_move 0 0 Cell.S).game.left_score = c3_gr.game.left_score
      ∧ (c3_gr.make_move 0 0 Cell.S).game.right_score = c3_gr.game.right_score
      ∧ (c3_gr.make_move 0 0 Cell.S).game.turn = c3_gr.game.turn
      ∧ (c3_gr.make_move 0 0 Cell.S).game.state = c3_gr.game.state
      ∧ (c3_gr.make_move 0 0 Cell.S).game.cells_filled = c3_gr.game.cells_filled
      ∧ (c3_gr.make_move 0 0 Cell.S).recording.moves.length
          = c3_gr.recording.moves.length) :=
  ⟨by decide, C3_rejected_noop c3_gr 0 0 Cell.S (by decide)⟩

/-- Witness for C4: the first move on a started 3×3 Classic game. -/
theorem C4_classic_status_witness :
    (g3x3_classic.mode = Mode.Classic ∧ g3x3_classic.accepts 0 0 = true)
    ∧ (((g3x3_classic.make_move 0 0 Cell.S).cells_filled
          < g3x3_classic.board.length ^ 2 →
        (g3x3_classic.make_move 0 0 Cell.S).state = State.Playing)
      ∧ ((g3x3_classic.make_move 0 0 Cell.S).cells_filled
          = g3x3_classic.board.length ^ 2 →
        (g3x3_classic.make_move 0 0 Cell.S).state =
          (if (g3x3_classic.make_move 0 0 Cell.S).right_score
                < (g3x3_classic.make_move 0 0 Cell.S).left_score then State.LeftWin
           else if (g3x3_classic.make_move 0 0 Cell.S).left_score
                < (g3x3_classic.make_move 0 0 Cell.S).right_score then State.RightWin
           else State.Draw))) :=
  ⟨⟨by decide, by decide⟩,
    C4_classic_status g3x3_classic 0 0 Cell.S (by decide) (by decide)⟩

/-- Witness for C5: the first move on a started 3×3 Simple game. -/
theorem C5_simple_status_witness :
    (g3x3_simple.mode = Mode.Simple ∧ g3x3_simple.accepts 0 0 = true)
    ∧ (((g3x3_simple.make_move 0 0 Cell.S).right_score
          < (g3x3_simple.make_move 0 0 Cell.S).left_score →
        (g3x3_simple.make_move 0 0 Cell.S).state = State.LeftWin)
      ∧ ((g3x3_simple.make_move 0 0 Cell.S).left_score
          < (g3x3_simple.make_move 0 0 Cell.S).right_score →
        (g3x3_simple.make_move 0 0 Cell.S).state = State.RightWin)
      ∧ ((g3x3_simple.make_move 0 0 Cell.S).left_score
            = (g3x3_simple.make_move 0 0 Cell.S).right_score →
        (g3x3_simple.make_move 0 0 Cell.S).cells_filled
            = g3x3_simple.board.length ^ 2 →
        (g3x3_simple.make_move 0 0 Cell.S).state = State.Draw)
      ∧ ((g3x3_simple.make_move 0 0 Cell.S).left_score
            = (g3x3_simple.make_move 0 0 Cell.S).right_score →
        (g3x3_simple.make_move 0 0 Cell.S).cells_filled
            ≠ g3x3_simple.board.length ^ 2 →
        (g3x3_simple.make_move 0 0 Cell.S).state = State.Playing)) :=
  ⟨⟨by decide, by decide⟩,
    C5_simple_status g3x3_simple 0 0 Cell.S (by decide) (by decide)⟩

/-- Witness for C7: round trip of the concrete recording `c7_rec`. -/
theorem C7_serialize_roundtrip_witness :
    ((∀ m ∈ c7_rec.moves, m.cell = Cell.S ∨ m.cell = Cell.O)
      ∧ c7_rec.board_size < 2 ^ 64
      ∧ (∀ m ∈ c7_rec.moves, m.row < 2 ^ 64 ∧ m.col < 2 ^ 64))
    ∧ read_from_string c7_rec.as_string
        = RfResult.ok { mode := c7_rec.mode, board_size := c7_rec.board_size,
                        moves := c7_rec.moves, current_move := 0 } :=
  ⟨⟨by decide, by decide, by decide⟩,
    C7_serialize_roundtrip c7_rec (by decide) (by decide) (by decide)⟩

/-- Witness for C8 (amended): the well-formed header-only contents `C,3`. -/
theorem C8_all_or_nothing_witness :
    (2 ≤ (splitOnChar ',' (first_line_of ['C', ',', '3'])).length
      ∧ (∀ line ∈ rust_lines (rest_of ['C', ',', '3']),
          3 ≤ (splitOnChar ',' line).length))
    ∧ (read_from_string ['C', ',', '3'] = RfResult.noResult
      ∨ ∃ rec, read_from_string ['C', ',', '3'] = RfResult.ok rec) :=
  ⟨⟨by decide, by decide⟩,
    C8_all_or_nothing ['C', ',', '3'] (by decide) (by decide)⟩

/-- Witness for C9: the four-request script `c9_ms` on `c9_gr`, and the
single accepted move `S@(0,0)`. -/
theorem C9_recording_append_witness :
    (c9_gr.game.accepts 0 0 = true →
      (c9_gr.make_move 0 0 Cell.S).recording.moves
        = c9_gr.recording.moves ++ [{ cell := Cell.S, row := 0, col := 0 }])
    ∧ (c9_gr.play c9_ms).recording.moves
        = c9_gr.recording.moves ++ accepted_moves c9_gr c9_ms :=
  C9_recording_append c9_gr c9_ms 0 0 Cell.S

/-- Witness for C10: an `Empty` move at `(0,0)` on a started 3×3 Classic
game. -/
theorem C10_empty_move_witness :
    (g3x3_classic.state = State.Playing
      ∧ g3x3_classic.valid_cell 0 0 = true
      ∧ getc g3x3_classic.board 0 0 = Cell.Empty
      ∧ g3x3_classic.cells_filled + 1 < 2 ^ 64
      ∧ g3x3_classic.left_score < 2 ^ 32
      ∧ g3x3_classic.right_score < 2 ^ 32)
    ∧ ((g3x3_classic.make_move 0 0 Cell.Empty).board = g3x3_classic.board
      ∧ (g3x3_classic.make_move 0 0 Cell.Empty).cells_filled
          = g3x3_classic.cells_filled + 1
      ∧ (g3x3_classic.make_move 0 0 Cell.Empty).left_score
          = g3x3_classic.left_score
      ∧ (g3x3_classic.make_move 0 0 Cell.Empty).right_score
          = g3x3_classic.right_score
      ∧ (g3x3_classic.make_move 0 0 Cell.Empty).turn
          = switch_turn g3x3_classic.turn
      ∧ c10_demo.state = State.Draw
      ∧ c10_demo.cells_filled = 3 ^ 2
      ∧ count_nonempty c10_demo.board = 0) :=
  ⟨⟨by decide, by decide, by decide, by decide, by decide, by decide⟩,
    C10_empty_move g3x3_classic 0 0 (by decide) (by decide) (by decide)
      (by decide) (by decide) (by decide)⟩

end SosGame
